import Mathlib

/-
  Verification development for the crd-bootstrap reconciliation core.

  The definitions below are shallow embeddings of the Go sources:
    - pkg/source/configmap/source.go, pkg/source/github/github.go,
      pkg/source/gitlab/gitlab.go, pkg/source/helm/helm.go (HasUpdate and the
      shared semver decision logic),
    - the url source package (Source.HasUpdate),
    - internal/controller/apply.go (readObjects),
    - internal/controller/bootstrap_controller.go (Reconcile, reconcileDelete,
      validateObjects).

  Machine integers do not occur on the modelled paths; versions are parsed into
  natural-number components.  External I/O (Kubernetes API calls, HTTP
  downloads, server-side apply, waiting) is abstracted into explicit
  result/environment values; the decision logic itself is translated directly.
-/

namespace CrdBootstrap

/-- Outcome of running a piece of Go code that may return a value, return an
error, or hit a runtime fault (nil dereference, index out of range). -/
inductive RunOutcome (α : Type) where
  | ok : α → RunOutcome α
  | fail : String → RunOutcome α
  | panicked : RunOutcome α
deriving DecidableEq

/-! ## Semver model

Model of the Masterminds semver v3 library as the sources use it:
NewVersion, Compare (Equal and GreaterThan are derived from Compare), and
Original.  A compiled constraint is modelled as a boolean predicate on parsed
versions, mirroring Constraints.Check. -/

/-- Three-way comparison of natural numbers, mirroring Go integer comparison. -/
def cmpN (a b : Nat) : Ordering :=
  if a < b then .lt else if a = b then .eq else .gt

/-- Character-list lexicographic comparison, mirroring Go string comparison
(byte order; the inputs here are ASCII identifiers). -/
def cmpCharList : List Char → List Char → Ordering
  | [], [] => .eq
  | [], _ :: _ => .lt
  | _ :: _, [] => .gt
  | x :: xs, y :: ys => if x < y then .lt else if y < x then .gt else cmpCharList xs ys

/-- Digit accumulation for decimal parsing. -/
def digitsToNat : List Char → Nat → Nat
  | [], acc => acc
  | c :: cs, acc => digitsToNat cs (acc * 10 + (c.toNat - 48))

/-- Decimal parse of a character list, mirroring strconv parsing of an
unsigned decimal: succeeds exactly on a non-empty all-digit list. -/
def listToNatQ (cs : List Char) : Option Nat :=
  if !cs.isEmpty && cs.all Char.isDigit then some (digitsToNat cs 0) else none

/-- Split a character list on a separator character; mirrors strings.Split
(always returns at least one group). -/
def splitListOn (sep : Char) : List Char → List (List Char)
  | [] => [[]]
  | c :: cs =>
    if c = sep then [] :: splitListOn sep cs
    else
      match splitListOn sep cs with
      | [] => [[c]]
      | g :: gs => (c :: g) :: gs

/-- Join character lists with a separator; inverse of splitListOn on its image. -/
def joinWith (sep : Char) : List (List Char) → List Char
  | [] => []
  | [x] => x
  | x :: xs => x ++ sep :: joinWith sep xs

/-- Split at the first occurrence of a separator, keeping the remainder whole. -/
def splitFirstOn (sep : Char) (cs : List Char) : List Char × Option (List Char) :=
  match splitListOn sep cs with
  | [] => (cs, none)
  | [x] => (x, none)
  | x :: rest => (x, some (joinWith sep rest))

/-- A parsed semantic version: numeric core, raw prerelease string and raw
build metadata string (empty string when absent), as the Masterminds Version
struct stores them. -/
structure SemVer where
  major : Nat
  minor : Nat
  patch : Nat
  pre : String
  metadata : String
deriving DecidableEq

/-- Comparison of one prerelease identifier pair, mirroring comparePrePart of
the semver library: equal strings are equal, an absent part is smallest,
numeric identifiers order numerically and below alphanumeric ones, otherwise
plain string order (ties of distinct numeral spellings fall to lt as in the
library). -/
def comparePrePart (s o : List Char) : Ordering :=
  if s = o then .eq
  else if s.isEmpty then .lt
  else if o.isEmpty then .gt
  else
    match listToNatQ s, listToNatQ o with
    | none, none => cmpCharList s o
    | some _, none => .lt
    | none, some _ => .gt
    | some si, some oi => if si > oi then .gt else .lt

/-- Comparison tail once the left identifier list is exhausted: each
remaining right part is compared against an absent part. -/
def comparePreRestR : List (List Char) → Ordering
  | [] => .eq
  | o :: os =>
    match comparePrePart [] o with
    | .eq => comparePreRestR os
    | r => r

/-- Comparison tail once the right identifier list is exhausted. -/
def comparePreRestL : List (List Char) → Ordering
  | [] => .eq
  | s :: ss =>
    match comparePrePart s [] with
    | .eq => comparePreRestL ss
    | r => r

/-- Pairwise comparison of dotted prerelease identifier lists, padding the
shorter list with empty parts, mirroring comparePrerelease. -/
def comparePreList : List (List Char) → List (List Char) → Ordering
  | [], o => comparePreRestR o
  | s :: ss, [] =>
    match comparePrePart s [] with
    | .eq => comparePreRestL ss
    | r => r
  | s :: ss, o :: os =>
    match comparePrePart s o with
    | .eq => comparePreList ss os
    | r => r

/-- Version comparison mirroring Version.Compare: numeric core first, then a
version without prerelease outranks one with, then dotted prerelease
comparison.  Build metadata is ignored. -/
def compareV (a b : SemVer) : Ordering :=
  match cmpN a.major b.major with
  | .eq =>
    match cmpN a.minor b.minor with
    | .eq =>
      match cmpN a.patch b.patch with
      | .eq =>
        if a.pre = "" && b.pre = "" then .eq
        else if a.pre = "" then .gt
        else if b.pre = "" then .lt
        else comparePreList (splitListOn '.' a.pre.data) (splitListOn '.' b.pre.data)
      | r => r
    | r => r
  | r => r

/-- Version.Equal of the semver library. -/
def eqV (a b : SemVer) : Bool :=
  match compareV a b with
  | .eq => true
  | _ => false

/-- Version.GreaterThan of the semver library. -/
def gtV (a b : SemVer) : Bool :=
  match compareV a b with
  | .gt => true
  | _ => false

/-- Version.LessThan of the semver library. -/
def ltV (a b : SemVer) : Bool :=
  match compareV a b with
  | .lt => true
  | _ => false

/-- Identifier characters permitted by the semver regular expression. -/
def isIdentChar (c : Char) : Bool := c.isAlphanum || c = '-'

/-- Validity of a dotted identifier sequence (prerelease or metadata):
every dot-separated part is non-empty and uses identifier characters only. -/
def validDotted (cs : List Char) : Bool :=
  (splitListOn '.' cs).all (fun p => !p.isEmpty && p.all isIdentChar)

/-- Parse of the one-to-three numeric core components; absent minor and patch
default to zero, as NewVersion permits. -/
def parseCore (core : List Char) : Option (Nat × Nat × Nat) :=
  match splitListOn '.' core with
  | [a] =>
    match listToNatQ a with
    | some ma => some (ma, 0, 0)
    | none => none
  | [a, b] =>
    match listToNatQ a, listToNatQ b with
    | some ma, some mi => some (ma, mi, 0)
    | _, _ => none
  | [a, b, c] =>
    match listToNatQ a, listToNatQ b, listToNatQ c with
    | some ma, some mi, some pa => some (ma, mi, pa)
    | _, _, _ => none
  | _ => none

/-- Model of semver.NewVersion: optional leading v, numeric dotted core,
optional prerelease after the first hyphen, optional build metadata after the
first plus sign; returns none exactly when the library returns an error. -/
def parseVersion (s : String) : Option SemVer :=
  let cs :=
    match s.data with
    | 'v' :: rest => rest
    | l => l
  let bm := splitFirstOn '+' cs
  let mdOK :=
    match bm.2 with
    | none => true
    | some m => validDotted m
  let cp := splitFirstOn '-' bm.1
  let preOK :=
    match cp.2 with
    | none => true
    | some p => validDotted p
  if mdOK && preOK then
    match parseCore cp.1 with
    | some (ma, mi, pa) =>
      some ⟨ma, mi, pa, String.mk (cp.2.getD []), String.mk (bm.2.getD [])⟩
    | none => none
  else none

/-! ## Source decision logic

Each semver-driven source (ConfigMap, GitHub, GitLab, Helm) repeats the same
decision block in its HasUpdate.  The block is translated once per source,
with that source's error messages, from the respective Go file.  The compiled
constraint obtained from semver.NewConstraint on spec.version.semver is the
parameter check. -/

namespace Configmap

/-- Translated from Source.HasUpdate in pkg/source/configmap/source.go: the
decision applied once the candidate version string has been read from the
config map data under the version key. -/
def hasUpdateDecision (check : SemVer → Bool) (latestVersion lastAppliedRevision : String) :
    Except String (Bool × String) :=
  match parseVersion latestVersion with
  | none => .error "failed to parse current config map version as semver"
  | some latestVersionSemver =>
    if check latestVersionSemver then
      if lastAppliedRevision = "" then .ok (true, latestVersion)
      else
        match parseVersion lastAppliedRevision with
        | none => .error "failed to parse last applied revision; expected version for config map source"
        | some lastAppliedRevisionSemver =>
          if eqV lastAppliedRevisionSemver latestVersionSemver ||
              gtV lastAppliedRevisionSemver latestVersionSemver then
            .ok (false, lastAppliedRevision)
          else .ok (true, latestVersion)
    else .ok (false, lastAppliedRevision)

end Configmap

namespace Github

/-- Translated from Source.HasUpdate in pkg/source/github/github.go: the
decision applied to the latest release tag fetched from the GitHub API. -/
def hasUpdateDecision (check : SemVer → Bool) (latestVersion lastAppliedRevision : String) :
    Except String (Bool × String) :=
  match parseVersion latestVersion with
  | none => .error "failed to parse current version as semver"
  | some latestVersionSemver =>
    if check latestVersionSemver then
      if lastAppliedRevision = "" then .ok (true, latestVersion)
      else
        match parseVersion lastAppliedRevision with
        | none => .error "failed to parse last applied revision"
        | some lastAppliedRevisionSemver =>
          if eqV lastAppliedRevisionSemver latestVersionSemver ||
              gtV lastAppliedRevisionSemver latestVersionSemver then
            .ok (false, lastAppliedRevision)
          else .ok (true, latestVersion)
    else .ok (false, lastAppliedRevision)

end Github

namespace Gitlab

/-- Translated from Source.HasUpdate in pkg/source/gitlab/gitlab.go: the
decision applied to the latest release tag fetched from the GitLab API. -/
def hasUpdateDecision (check : SemVer → Bool) (latestVersion lastAppliedRevision : String) :
    Except String (Bool × String) :=
  match parseVersion latestVersion with
  | none => .error "failed to parse current version as semver"
  | some latestVersionSemver =>
    if check latestVersionSemver then
      if lastAppliedRevision = "" then .ok (true, latestVersion)
      else
        match parseVersion lastAppliedRevision with
        | none => .error "failed to parse last applied revision"
        | some lastAppliedRevisionSemver =>
          if eqV lastAppliedRevisionSemver latestVersionSemver ||
              gtV lastAppliedRevisionSemver latestVersionSemver then
            .ok (false, lastAppliedRevision)
          else .ok (true, latestVersion)
    else .ok (false, lastAppliedRevision)

end Gitlab

namespace Url

/-- Translated from Source.HasUpdate of the url source package, after a
successful download: hashHex stands for the hex encoding of the sha-256 sum
of the downloaded bytes, digest for spec.version.digest (empty when unset)
and lastAppliedRevision for status.lastAppliedRevision. -/
def hasUpdate (digest hashHex lastAppliedRevision : String) : Bool × String :=
  if digest ≠ "" then
    if digest = hashHex then (true, digest) else (false, "")
  else if lastAppliedRevision = hashHex then (false, lastAppliedRevision)
  else (true, hashHex)

end Url

namespace Helm

/-- Descending insertion of a tag and its parsed version. -/
def insertDesc (a : String × SemVer) : List (String × SemVer) → List (String × SemVer)
  | [] => [a]
  | b :: bs => if gtV a.2 b.2 then a :: b :: bs else b :: insertDesc a bs

/-- Descending sort by GreaterThan, modelling the sort.Slice call in
getLatestVersion (order among comparison-equal versions is irrelevant to the
claims). -/
def sortDesc : List (String × SemVer) → List (String × SemVer)
  | [] => []
  | a :: rest => insertDesc a (sortDesc rest)

/-- Translated from Source.getLatestVersion in pkg/source/helm/helm.go:
keep the tags that parse as semver and satisfy the constraint, sort
descending, and take the first element.  The Go code indexes element zero of
the filtered slice unconditionally; on an empty filtered slice that is an
index-out-of-range runtime fault, modelled as panicked. -/
def getLatestVersion (versions : List String) (check : SemVer → Bool) : RunOutcome String :=
  let semvers := versions.filterMap (fun v =>
    match parseVersion v with
    | none => none
    | some sv => if check sv then some (v, sv) else none)
  match sortDesc semvers with
  | [] => .panicked
  | p :: _ => .ok p.1

/-- Translated from Source.HasUpdate in pkg/source/helm/helm.go: the decision
applied to the candidate returned by getLatestVersion. -/
def versionDecision (check : SemVer → Bool) (latestRemoteVersion lastAppliedRevision : String) :
    Except String (Bool × String) :=
  match parseVersion latestRemoteVersion with
  | none => .error "failed to parse current version as semver"
  | some latestVersionSemver =>
    if check latestVersionSemver then
      if lastAppliedRevision = "" then .ok (true, latestRemoteVersion)
      else
        match parseVersion lastAppliedRevision with
        | none => .error "failed to parse last applied revision"
        | some lastAppliedRevisionSemver =>
          if eqV lastAppliedRevisionSemver latestVersionSemver ||
              gtV lastAppliedRevisionSemver latestVersionSemver then
            .ok (false, lastAppliedRevision)
          else .ok (true, latestRemoteVersion)
    else .ok (false, lastAppliedRevision)

/-- Source.HasUpdate of the helm source for an already fetched tag list
(versions): getLatestVersion followed by the shared decision block. -/
def hasUpdate (versions : List String) (check : SemVer → Bool) (lastAppliedRevision : String) :
    RunOutcome (Bool × String) :=
  match getLatestVersion versions check with
  | .panicked => .panicked
  | .fail e => .fail e
  | .ok latestRemoteVersion =>
    match versionDecision check latestRemoteVersion lastAppliedRevision with
    | .error e => .fail e
    | .ok r => .ok r

end Helm

/-! ## Manifest loader

Model of readObjects in internal/controller/apply.go.  The Lstat result is
modelled by the two mode predicates the code consults (IsDir and
Mode().IsRegular(); for a symbolic link Lstat reports the link itself, so both
are false whatever the target is).  The multi-document parse performed by the
fluxcd ReadObjects helper is modelled per document: none stands for a document
that fails to parse. -/

/-- Result of os.Lstat as consulted by readObjects. -/
structure FileInfoM where
  isDir : Bool
  isRegularMode : Bool
deriving DecidableEq

/-- One YAML document as the loader sees it: its kind and an opaque payload. -/
structure YamlDoc where
  kind : String
  payload : Nat
deriving DecidableEq

/-- Model of the fluxcd ReadObjects helper: every document must parse; the
parsed documents are returned in file order. -/
def utilsReadObjects (docs : List (Option YamlDoc)) : Except String (List YamlDoc) :=
  if docs.all (fun d => d.isSome) then .ok (docs.filterMap id)
  else .error "failed to decode manifest document"

/-- Translated from readObjects in internal/controller/apply.go: stat must
succeed and denote a regular file, every document must parse, and only
documents whose kind is CustomResourceDefinition are kept, in order. -/
def readObjects (stat : Option FileInfoM) (docs : List (Option YamlDoc)) :
    Except String (List YamlDoc) :=
  match stat with
  | none => .error "lstat failed"
  | some fi =>
    if fi.isDir || !fi.isRegularMode then .error "expected path to be a file"
    else
      match utilsReadObjects docs with
      | .error e => .error e
      | .ok objects => .ok (objects.filter (fun o => o.kind == "CustomResourceDefinition"))

/-! ## Schema validator

Model of BootstrapReconciler.validateObjects in
internal/controller/bootstrap_controller.go.  A parsed custom resource
definition is reduced to the fields the function touches: the kind under
spec.names.kind and, per declared version, the schema pointer v.Schema
(an optional validation struct) holding the optional openAPIV3Schema pointer.
Template values and schema payloads are opaque; the behaviour of the schema
validator built by NewSchemaValidator is abstracted into the predicate
validate. -/

/-- One declared CRD version: schema is v.Schema (none models a nil pointer);
its value is the openAPIV3Schema pointer (none models nil, which the
validator accepts as an empty schema). -/
structure CRDVersionM where
  schema : Option (Option Nat)
deriving DecidableEq

/-- A parsed CRD as validateObjects consumes it. -/
structure CRDM where
  kind : String
  versions : List CRDVersionM
deriving DecidableEq

/-- Validation loop over the declared versions of one CRD, translated from the
inner loop of validateObjects: the code reads v.Schema.OpenAPIV3Schema
unconditionally, so a nil schema pointer is a nil-dereference fault, modelled
as panicked; otherwise, when the template map has an entry for the kind, the
example is run through the validator. -/
def validateVersions (tpl : List (String × Nat)) (validate : Option Nat → Nat → Bool)
    (kind : String) : List CRDVersionM → RunOutcome Unit
  | [] => .ok ()
  | v :: rest =>
    match v.schema with
    | none => .panicked
    | some props =>
      match tpl.lookup kind with
      | some t =>
        if validate props t then validateVersions tpl validate kind rest
        else .fail "failed to validate kind"
      | none => validateVersions tpl validate kind rest

/-- Sequential validation of all fetched objects, as the outer loop of
validateObjects performs it. -/
def validateObjectsLoop (tpl : List (String × Nat)) (validate : Option Nat → Nat → Bool) :
    List CRDM → RunOutcome Unit
  | [] => .ok ()
  | o :: os =>
    match validateVersions tpl validate o.kind o.versions with
    | .ok _ => validateObjectsLoop tpl validate os
    | r => r

/-- Translated from BootstrapReconciler.validateObjects: bail out early when
spec.template is nil, otherwise validate every object. -/
def validateObjects (template : Option (List (String × Nat)))
    (validate : Option Nat → Nat → Bool) (objects : List CRDM) : RunOutcome Unit :=
  match template with
  | none => .ok ()
  | some tpl => validateObjectsLoop tpl validate objects

/-! ## Reconciler

Model of BootstrapReconciler.Reconcile and reconcileDelete.  All external
calls are abstracted into an environment carrying their results; the decision
structure, the status writes (including the deferred patch setting
observedGeneration) and the Go map aliasing on status.lastAppliedCRDNames are
translated directly. -/

/-- The owner label key, from api/v1alpha1/constants (BootstrapOwnerLabelKey). -/
def bootstrapOwnerLabelKey : String := "delivery.crd-bootstrap.owned"

/-- An unstructured object as the apply path handles it: name plus labels.
SetLabels replaces the whole label map. -/
structure RObj where
  name : String
  labels : List (String × String)
deriving DecidableEq

/-- The source configured on a Bootstrap, reduced to what HasUpdate consumes:
a semver-driven source carries the compiled constraint and the candidate the
platform currently offers; a url source carries the pinned digest (empty when
unset) and the hex sha-256 of the currently downloadable content; failK
models a source whose remote interrogation fails. -/
inductive SourceKind where
  | semverK (check : SemVer → Bool) (candidate : String)
  | urlK (digest : String) (hashHex : String)
  | failK (msg : String)

/-- The decision block shared verbatim by the four semver-driven sources
(pkg/source/configmap, github, gitlab, helm); used by the reconciler model. -/
def versionDecision (check : SemVer → Bool) (latestVersion lastAppliedRevision : String) :
    Except String (Bool × String) :=
  match parseVersion latestVersion with
  | none => .error "failed to parse current version as semver"
  | some latestVersionSemver =>
    if check latestVersionSemver then
      if lastAppliedRevision = "" then .ok (true, latestVersion)
      else
        match parseVersion lastAppliedRevision with
        | none => .error "failed to parse last applied revision"
        | some lastAppliedRevisionSemver =>
          if eqV lastAppliedRevisionSemver latestVersionSemver ||
              gtV lastAppliedRevisionSemver latestVersionSemver then
            .ok (false, lastAppliedRevision)
          else .ok (true, latestVersion)
    else .ok (false, lastAppliedRevision)

/-- SourceProvider.HasUpdate as the reconciler sees it, dispatched on the
configured source kind and fed the stored lastAppliedRevision. -/
def sourceHasUpdate : SourceKind → String → Except String (Bool × String)
  | .semverK check candidate, lastApplied => versionDecision check candidate lastApplied
  | .urlK digest hashHex, lastApplied => .ok (Url.hasUpdate digest hashHex lastApplied)
  | .failK msg, _ => .error msg

/-- The spec fields the reconcile path reads. -/
structure SpecM where
  updatePolicy : String
  continueOnValidationError : Bool
  prune : Bool
deriving DecidableEq

/-- Bootstrap status as the reconcile path writes it.  ready models the Ready
condition as its status flag and reason; lastAppliedCRDNames is none when the
Go map is nil. -/
structure StatusM where
  observedGeneration : Int
  ready : Option (Bool × String)
  breakingChanges : List String
  lastAppliedCRDNames : Option (List (String × Nat))
  lastAttemptedRevision : String
  lastAppliedRevision : String
deriving DecidableEq

/-- Results of the external calls one reconcile invocation performs. -/
structure Env where
  source : SourceKind
  mkdirTempOK : Bool
  fetchCRDOK : Bool
  resourceManagerOK : Bool
  readObjectsRes : Except String (List RObj)
  breakingChangesRes : Except String (List String)
  validateFails : Bool
  applyOK : Bool
  waitOK : Bool

/-- Observable outcome of one reconcile: the status the deferred patch
persists, the objects handed to ApplyAllStaged (empty when the apply stage is
never reached), whether a requeue-after was scheduled, and whether an error
was returned. -/
structure RecResult where
  status : StatusM
  applySubmitted : List RObj
  requeue : Bool
  isErr : Bool
deriving DecidableEq

/-- Ready condition marked false with a reason, plus the deferred
observedGeneration write. -/
def markFalseSt (st : StatusM) (gen : Int) (reason : String) : StatusM :=
  { st with observedGeneration := gen, ready := some (false, reason) }

/-- Increment of one name in the applied-CRD counter map (Go map increment:
a missing key starts at zero). -/
def bumpCount : List (String × Nat) → String → List (String × Nat)
  | [], k => [(k, 1)]
  | (a, n) :: rest, k =>
    if a = k then (a, n + 1) :: rest else (a, n) :: bumpCount rest k

/-- Increment of the counter map once per object, in object order. -/
def bumpAll (m : List (String × Nat)) (objs : List RObj) : List (String × Nat) :=
  objs.foldl (fun acc o => bumpCount acc o.name) m

/-- Tail of the reconcile from template validation onward (lines 215 to 247
of bootstrap_controller.go): validation, ApplyAllStaged, Wait, and the
success-only status writes. -/
def reconcileValidateStage (env : Env) (spec : SpecM) (gen : Int) (st : StatusM)
    (revision : String) (labeled : List RObj) (applied : List (String × Nat)) : RecResult :=
  if env.validateFails && !spec.continueOnValidationError then
    ⟨markFalseSt st gen "CRDValidationFailed", [], false, true⟩
  else if !env.applyOK then
    ⟨markFalseSt st gen "ApplyingCRDSFailed", labeled, false, true⟩
  else if !env.waitOK then
    ⟨markFalseSt st gen "WaitingOnObjectsFailed", labeled, false, true⟩
  else
    ⟨{ st with observedGeneration := gen,
               lastAppliedCRDNames := some applied,
               lastAppliedRevision := revision,
               ready := some (true, "Succeeded") }, labeled, true, false⟩

/-- The update-policy stage (lines 194 to 213): breaking-change detection runs
only when spec.updatePolicy is set; detected changes are recorded in status
and block the apply under the safe policy. -/
def reconcilePolicyStage (env : Env) (spec : SpecM) (gen : Int) (st : StatusM)
    (revision : String) (labeled : List RObj) (applied : List (String × Nat)) : RecResult :=
  if spec.updatePolicy = "" then
    reconcileValidateStage env spec gen st revision labeled applied
  else
    match env.breakingChangesRes with
    | .error _ => ⟨markFalseSt st gen "BreakingChangeDetectionFailed", [], false, true⟩
    | .ok bcs =>
      let st3 := { st with breakingChanges := bcs }
      if !bcs.isEmpty && spec.updatePolicy == "safe" then
        ⟨markFalseSt st3 gen "BreakingChangeDetected", [], false, true⟩
      else
        reconcileValidateStage env spec gen st3 revision labeled applied

/-- The fetch-to-record stages of one reconcile with an update to perform
(lines 144 to 247): temp dir, FetchCRD, resource manager, readObjects, the
labelling-and-count loop, then policy, validation, apply and wait.  The count
loop runs on the alias applied of status.lastAppliedCRDNames: when that Go map
is non-nil the increments mutate the status map in place, which the model
renders by updating the status field at that point. -/
def reconcileFetchStage (env : Env) (spec : SpecM) (gen : Int) (bootstrapName : String)
    (st : StatusM) (revision : String) : RecResult :=
  if !env.mkdirTempOK then
    ⟨markFalseSt st gen "TempFolderFailedToCreate", [], false, true⟩
  else if !env.fetchCRDOK then
    ⟨markFalseSt st gen "CRDFetchFailed", [], false, true⟩
  else if !env.resourceManagerOK then
    ⟨markFalseSt st gen "ResourceManagerCreateFailed", [], false, true⟩
  else
    match env.readObjectsRes with
    | .error _ => ⟨markFalseSt st gen "ReadingObjectsToApplyFailed", [], false, true⟩
    | .ok objects =>
      let labeled := objects.map (fun o => { o with labels := [(bootstrapOwnerLabelKey, bootstrapName)] })
      let applied := bumpAll (st.lastAppliedCRDNames.getD []) labeled
      let st2 :=
        match st.lastAppliedCRDNames with
        | none => st
        | some _ => { st with lastAppliedCRDNames := some applied }
      reconcilePolicyStage env spec gen st2 revision labeled applied

/-- Translated from BootstrapReconciler.Reconcile (non-deletion path, lines
105 to 248): HasUpdate, the no-update early return marking Ready true, the
lastAttemptedRevision write, then the fetch stage.  The deferred patch always
sets observedGeneration to the object generation. -/
def reconcile (env : Env) (spec : SpecM) (gen : Int) (bootstrapName : String)
    (st : StatusM) : RecResult :=
  match sourceHasUpdate env.source st.lastAppliedRevision with
  | .error _ => ⟨{ st with observedGeneration := gen }, [], false, true⟩
  | .ok (update, revision) =>
    if update then
      reconcileFetchStage env spec gen bootstrapName
        { st with lastAttemptedRevision := revision } revision
    else
      ⟨{ st with observedGeneration := gen, ready := some (true, "Succeeded") }, [], true, false⟩

/-- A CRD present in the cluster, as the teardown path sees it. -/
structure CRDItem where
  name : String
  labels : List (String × String)
deriving DecidableEq

/-- Outcome of reconcileDelete: the CRDs remaining in the cluster and whether
the finalizer was removed. -/
structure DeleteResult where
  remaining : List CRDItem
  finalizerRemoved : Bool
deriving DecidableEq

/-- Label-selector match used by the teardown List call: the CRD carries the
owner label with exactly the Bootstrap name as value. -/
def matchesOwner (bootstrapName : String) (c : CRDItem) : Bool :=
  c.labels.lookup bootstrapOwnerLabelKey == some bootstrapName

/-- Translated from BootstrapReconciler.reconcileDelete (lines 250 to 285),
successful-call path: without prune only the finalizer is removed; with prune
the CRDs matching the owner label are listed and deleted, then the finalizer
is removed. -/
def reconcileDelete (prune : Bool) (bootstrapName : String) (cluster : List CRDItem) :
    DeleteResult :=
  if !prune then ⟨cluster, true⟩
  else ⟨cluster.filter (fun c => !matchesOwner bootstrapName c), true⟩

/-- Reconcile iterated over a list of per-cycle environments, returning every
intermediate status (the trace starts with the initial status). -/
def reconcileTrace (spec : SpecM) (gen : Int) (bootstrapName : String) :
    List Env → StatusM → List StatusM
  | [], st => [st]
  | e :: es, st =>
    st :: reconcileTrace spec gen bootstrapName es (reconcile e spec gen bootstrapName st).status

/-! ## Basic lemmas about the semver model -/

theorem cmpN_self (a : Nat) : cmpN a a = .eq := by
  simp [cmpN]

theorem comparePrePart_self (s : List Char) : comparePrePart s s = .eq := by
  simp [comparePrePart]

theorem comparePreList_self (l : List (List Char)) : comparePreList l l = .eq := by
  induction l with
  | nil => rfl
  | cons s ss ih => simp [comparePreList, comparePrePart_self, ih]

theorem comparePreList_nil : comparePreList [] [] = .eq := rfl

theorem compareV_self (v : SemVer) : compareV v v = .eq := by
  unfold compareV
  simp [cmpN_self, comparePreList_self]

theorem eqV_self (v : SemVer) : eqV v v = true := by
  simp [eqV, compareV_self]

theorem parseVersion_empty : parseVersion "" = none := by decide

theorem ge_of_not_lt_compare (vl vc : SemVer) (h : compareV vl vc ≠ .lt) :
    (eqV vl vc || gtV vl vc) = true := by
  unfold eqV gtV
  cases hcv : compareV vl vc <;> simp_all

theorem lt_compare_of_not_ge (vl vc : SemVer) (h : (eqV vl vc || gtV vl vc) = false) :
    compareV vl vc = .lt := by
  unfold eqV gtV at h
  cases hcv : compareV vl vc <;> simp_all

/-! ## Claim theorems -/

/-- C1: for every semver-driven source (ConfigMap, GitHub, GitLab, Helm) the
HasUpdate decision on a latest candidate version, a constraint and the stored
lastAppliedRevision returns (false, lastAppliedRevision) when the candidate
does not satisfy the constraint; (true, candidate) when it satisfies and the
stored revision is empty; an error when the stored revision is non-empty but
does not parse as semver; (false, lastAppliedRevision) when the parsed stored
revision compares greater than or equal to the candidate; and
(true, candidate) otherwise. -/
theorem c1_version_engine_cases (check : SemVer → Bool) (candidate lastApplied : String)
    (vc : SemVer) (hc : parseVersion candidate = some vc) :
    (check vc = false →
      Configmap.hasUpdateDecision check candidate lastApplied = .ok (false, lastApplied) ∧
      Github.hasUpdateDecision check candidate lastApplied = .ok (false, lastApplied) ∧
      Gitlab.hasUpdateDecision check candidate lastApplied = .ok (false, lastApplied) ∧
      Helm.versionDecision check candidate lastApplied = .ok (false, lastApplied)) ∧
    (check vc = true → lastApplied = "" →
      Configmap.hasUpdateDecision check candidate lastApplied = .ok (true, candidate) ∧
      Github.hasUpdateDecision check candidate lastApplied = .ok (true, candidate) ∧
      Gitlab.hasUpdateDecision check candidate lastApplied = .ok (true, candidate) ∧
      Helm.versionDecision check candidate lastApplied = .ok (true, candidate)) ∧
    (check vc = true → lastApplied ≠ "" → parseVersion lastApplied = none →
      (∃ e, Configmap.hasUpdateDecision check candidate lastApplied = .error e) ∧
      (∃ e, Github.hasUpdateDecision check candidate lastApplied = .error e) ∧
      (∃ e, Gitlab.hasUpdateDecision check candidate lastApplied = .error e) ∧
      (∃ e, Helm.versionDecision check candidate lastApplied = .error e)) ∧
    (∀ vl, check vc = true → parseVersion lastApplied = some vl → compareV vl vc ≠ .lt →
      Configmap.hasUpdateDecision check candidate lastApplied = .ok (false, lastApplied) ∧
      Github.hasUpdateDecision check candidate lastApplied = .ok (false, lastApplied) ∧
      Gitlab.hasUpdateDecision check candidate lastApplied = .ok (false, lastApplied) ∧
      Helm.versionDecision check candidate lastApplied = .ok (false, lastApplied)) ∧
    (∀ vl, check vc = true → parseVersion lastApplied = some vl → compareV vl vc = .lt →
      Configmap.hasUpdateDecision check candidate lastApplied = .ok (true, candidate) ∧
      Github.hasUpdateDecision check candidate lastApplied = .ok (true, candidate) ∧
      Gitlab.hasUpdateDecision check candidate lastApplied = .ok (true, candidate) ∧
      Helm.versionDecision check candidate lastApplied = .ok (true, candidate)) := by
  refine ⟨?_, ?_, ?_, ?_, ?_⟩
  · intro h
    refine ⟨?_, ?_, ?_, ?_⟩ <;>
      simp [Configmap.hasUpdateDecision, Github.hasUpdateDecision, Gitlab.hasUpdateDecision,
            Helm.versionDecision, hc, h]
  · intro h hla
    subst hla
    refine ⟨?_, ?_, ?_, ?_⟩ <;>
      simp [Configmap.hasUpdateDecision, Github.hasUpdateDecision, Gitlab.hasUpdateDecision,
            Helm.versionDecision, hc, h]
  · intro h hne hp
    refine ⟨?_, ?_, ?_, ?_⟩ <;>
      exact ⟨_, by
        simp [Configmap.hasUpdateDecision, Github.hasUpdateDecision,
          Gitlab.hasUpdateDecision, Helm.versionDecision, hc, h, hne, hp]
        rfl⟩
  · intro vl h hp hge
    have hla : lastApplied ≠ "" := by
      intro he
      rw [he, parseVersion_empty] at hp
      exact Option.noConfusion hp
    have hcmp := ge_of_not_lt_compare vl vc hge
    refine ⟨?_, ?_, ?_, ?_⟩ <;>
      simp [Configmap.hasUpdateDecision, Github.hasUpdateDecision, Gitlab.hasUpdateDecision,
            Helm.versionDecision, hc, h, hla, hp, hcmp]
  · intro vl h hp hlt
    have hla : lastApplied ≠ "" := by
      intro he
      rw [he, parseVersion_empty] at hp
      exact Option.noConfusion hp
    have hcmp : (eqV vl vc || gtV vl vc) = false := by
      unfold eqV gtV
      rw [hlt]
      rfl
    refine ⟨?_, ?_, ?_, ?_⟩ <;>
      simp [Configmap.hasUpdateDecision, Github.hasUpdateDecision, Gitlab.hasUpdateDecision,
            Helm.versionDecision, hc, h, hla, hp, hcmp]

/-- Witness for C1 at a concrete input: a satisfying candidate with an empty
stored revision reports an update for the ConfigMap-style decision. -/
theorem c1_version_engine_cases_witness :
    parseVersion "1.2.3" = some ⟨1, 2, 3, "", ""⟩ ∧
    Configmap.hasUpdateDecision (fun _ => true) "1.2.3" "" = .ok (true, "1.2.3") := by
  have h := c1_version_engine_cases (fun _ => true) "1.2.3" "" ⟨1, 2, 3, "", ""⟩ (by decide)
  exact ⟨by decide, (h.2.1 rfl rfl).1⟩

/-- C3: for a URL source, HasUpdate on the computed sha-256 hex hash of the
downloaded content returns, when spec.version.digest is set, (true, digest)
exactly when the hash equals the digest and (false, empty string) otherwise
with no error; when no digest is set it returns (true, hash) exactly when the
hash differs from status.lastAppliedRevision and (false, lastAppliedRevision)
when they are equal. -/
theorem c3_url_hasUpdate_cases (digest hashHex lastApplied : String) :
    (digest ≠ "" →
      (Url.hasUpdate digest hashHex lastApplied = (true, digest) ↔ hashHex = digest) ∧
      (hashHex ≠ digest → Url.hasUpdate digest hashHex lastApplied = (false, ""))) ∧
    (digest = "" →
      (Url.hasUpdate digest hashHex lastApplied = (true, hashHex) ↔ hashHex ≠ lastApplied) ∧
      (hashHex = lastApplied → Url.hasUpdate digest hashHex lastApplied = (false, lastApplied))) := by
  constructor
  · intro hd
    constructor
    · constructor
      · intro h
        by_cases he : digest = hashHex
        · exact he.symm
        · simp [Url.hasUpdate, hd, he] at h
      · intro h
        subst h
        simp [Url.hasUpdate, hd]
    · intro h
      have he : ¬(digest = hashHex) := fun he => h he.symm
      simp [Url.hasUpdate, hd, he]
  · intro hd
    subst hd
    constructor
    · constructor
      · intro h he
        rw [← he] at h
        simp [Url.hasUpdate] at h
      · intro h
        have he : ¬(lastApplied = hashHex) := fun he => h he.symm
        simp [Url.hasUpdate, he]
    · intro h
      subst h
      simp [Url.hasUpdate]

/-- Witness for C3 at a concrete input: a pinned digest matching the
computed hash reports an update carrying the digest. -/
theorem c3_url_hasUpdate_cases_witness :
    ("aa11" : String) ≠ "" ∧ Url.hasUpdate "aa11" "aa11" "" = (true, "aa11") := by
  refine ⟨by decide, ?_⟩
  exact ((c3_url_hasUpdate_cases "aa11" "aa11" "").1 (by decide)).1.mpr rfl

/-- C8: the manifest loader returns exactly the parsed documents whose kind
is CustomResourceDefinition, in file order; any unparsable document fails the
whole batch; a path whose Lstat mode is a directory or not a regular file
(hence any symbolic link, in particular one to a directory) is rejected; and
a file holding one CRD and three non-CRD documents yields exactly that CRD. -/
theorem c8_readObjects_spec (fi : FileInfoM) (docs : List (Option YamlDoc)) :
    (fi.isDir = true ∨ fi.isRegularMode = false →
      ∃ e, readObjects (some fi) docs = .error e) ∧
    (fi.isDir = false → fi.isRegularMode = true →
      ((∃ d ∈ docs, d = none) → ∃ e, readObjects (some fi) docs = .error e) ∧
      ((∀ d ∈ docs, d ≠ none) →
        readObjects (some fi) docs =
          .ok ((docs.filterMap id).filter (fun o => o.kind == "CustomResourceDefinition")))) ∧
    readObjects (some ⟨false, true⟩)
        [some ⟨"CustomResourceDefinition", 0⟩, some ⟨"Deployment", 1⟩,
         some ⟨"Service", 2⟩, some ⟨"Namespace", 3⟩]
      = .ok [⟨"CustomResourceDefinition", 0⟩] := by
  refine ⟨?_, ?_, rfl⟩
  · intro h
    rcases h with h | h <;> exact ⟨"expected path to be a file", by simp [readObjects, h]⟩
  · intro hd hr
    constructor
    · intro ⟨d, hmem, hnone⟩
      subst hnone
      refine ⟨"failed to decode manifest document", ?_⟩
      have hall : docs.all (fun d => d.isSome) = false :=
        List.all_eq_false.mpr ⟨none, hmem, by simp⟩
      simp [readObjects, utilsReadObjects, hd, hr, hall]
    · intro hall
      have hall2 : docs.all (fun d => d.isSome) = true := by
        simp only [List.all_eq_true]
        intro d hmem
        cases hdd : d with
        | none => exact absurd hdd (hall d hmem)
        | some v => simp
      simp [readObjects, utilsReadObjects, hd, hr, hall2]

/-- Witness for C8 at a concrete input: a directory path is rejected. -/
theorem c8_readObjects_spec_witness :
    ((true : Bool) = true ∨ (true : Bool) = false) ∧
    ∃ e, readObjects (some ⟨true, true⟩) [] = .error e := by
  refine ⟨Or.inl rfl, ?_⟩
  exact (c8_readObjects_spec ⟨true, true⟩ []).1 (Or.inl rfl)

/-- C9 evaluation at the failing input: with a template set for kind
KrokEvent and a fetched CRD of that kind declaring one version whose schema
field is nil, validateObjects dereferences the nil schema pointer and
faults instead of skipping the version. -/
theorem c9_nil_schema_eval :
    validateObjects (some [("KrokEvent", 0)]) (fun _ _ => true)
      [⟨"KrokEvent", [⟨none⟩]⟩] = .panicked ∧
    validateObjects (some [("KrokEvent", 0)]) (fun _ _ => true)
      [⟨"KrokEvent", [⟨some none⟩]⟩] = .ok () := by
  exact ⟨rfl, rfl⟩

/-- C10 evaluation at the failing inputs: the helm source HasUpdate faults
(index out of range in getLatestVersion) when the fetched tag list is empty,
and likewise when no tag satisfies the constraint; with a satisfying tag
present it selects the highest satisfying tag. -/
theorem c10_empty_tags_eval :
    Helm.hasUpdate [] (fun _ => true) "" = .panicked ∧
    Helm.hasUpdate ["0.9.0"] (fun v => decide (1 ≤ v.major)) "" = .panicked ∧
    Helm.hasUpdate ["0.9.0", "1.0.0", "1.5.0", "2.0.0"]
        (fun v => decide (1 ≤ v.major ∧ v.major < 2)) ""
      = .ok (true, "1.5.0") := by
  exact ⟨rfl, rfl, rfl⟩

theorem versionDecision_ok_true (check : SemVer → Bool) (cand last rev : String)
    (h : versionDecision check cand last = .ok (true, rev)) :
    rev = cand ∧ ∃ vc, parseVersion cand = some vc ∧ check vc = true ∧
      (last = "" ∨ ∃ vl, parseVersion last = some vl ∧ compareV vl vc = .lt) := by
  unfold versionDecision at h
  split at h
  · simp at h
  next vc hp =>
    split at h
    next hchk =>
      split at h
      next hla =>
        simp only [Except.ok.injEq, Prod.mk.injEq] at h
        exact ⟨h.2.symm, vc, hp, hchk, Or.inl hla⟩
      next hla =>
        split at h
        · simp at h
        next vl hpl =>
          split at h
          next hge => simp at h
          next hge =>
            simp only [Except.ok.injEq, Prod.mk.injEq] at h
            have hlt := lt_compare_of_not_ge vl vc (by simpa using hge)
            exact ⟨h.2.symm, vc, hp, hchk, Or.inr ⟨vl, hpl, hlt⟩⟩
    next hchk => simp at h

theorem versionDecision_ok_false (check : SemVer → Bool) (cand last rev : String)
    (h : versionDecision check cand last = .ok (false, rev)) : rev = last := by
  unfold versionDecision at h
  split at h
  · simp at h
  next vc hp =>
    split at h
    next hchk =>
      split at h
      next hla => simp at h
      next hla =>
        split at h
        · simp at h
        next vl hpl =>
          split at h
          next hge =>
            simp only [Except.ok.injEq, Prod.mk.injEq] at h
            exact h.2.symm
          next hge => simp at h
    next hchk =>
      simp only [Except.ok.injEq, Prod.mk.injEq] at h
      exact h.2.symm

theorem versionDecision_self (check : SemVer → Bool) (vc : SemVer) (cand : String)
    (hp : parseVersion cand = some vc) (hchk : check vc = true) :
    versionDecision check cand cand = .ok (false, cand) := by
  have hcand : cand ≠ "" := by
    intro he
    rw [he, parseVersion_empty] at hp
    exact Option.noConfusion hp
  simp [versionDecision, hp, hchk, hcand, eqV_self]

theorem urlHasUpdate_noDigest_true (hashHex last rev : String)
    (h : Url.hasUpdate "" hashHex last = (true, rev)) : rev = hashHex := by
  by_cases hl : last = hashHex
  · simp [Url.hasUpdate, hl] at h
  · simp [Url.hasUpdate, hl] at h
    exact h.symm

theorem urlHasUpdate_self (hashHex : String) :
    Url.hasUpdate "" hashHex hashHex = (false, hashHex) := by
  simp [Url.hasUpdate]

theorem statusM_eta (s : StatusM) (gen : Int)
    (hg : s.observedGeneration = gen) (hr : s.ready = some (true, "Succeeded")) :
    ({ s with observedGeneration := gen, ready := some (true, "Succeeded") } : StatusM) = s := by
  cases s
  simp_all

theorem validateStage_ok_fields (env : Env) (spec : SpecM) (gen : Int) (st : StatusM)
    (rev : String) (labeled : List RObj) (applied : List (String × Nat))
    (h : (reconcileValidateStage env spec gen st rev labeled applied).isErr = false) :
    (reconcileValidateStage env spec gen st rev labeled applied).status.observedGeneration = gen ∧
    (reconcileValidateStage env spec gen st rev labeled applied).status.ready
      = some (true, "Succeeded") ∧
    (reconcileValidateStage env spec gen st rev labeled applied).status.lastAppliedRevision
      = rev := by
  unfold reconcileValidateStage at h ⊢
  split_ifs at h ⊢
  simp_all [markFalseSt]

theorem policyStage_ok_fields (env : Env) (spec : SpecM) (gen : Int) (st : StatusM)
    (rev : String) (labeled : List RObj) (applied : List (String × Nat))
    (h : (reconcilePolicyStage env spec gen st rev labeled applied).isErr = false) :
    (reconcilePolicyStage env spec gen st rev labeled applied).status.observedGeneration = gen ∧
    (reconcilePolicyStage env spec gen st rev labeled applied).status.ready
      = some (true, "Succeeded") ∧
    (reconcilePolicyStage env spec gen st rev labeled applied).status.lastAppliedRevision
      = rev := by
  by_cases hpol : spec.updatePolicy = ""
  · have h2 : (reconcileValidateStage env spec gen st rev labeled applied).isErr = false := by
      simpa [reconcilePolicyStage, hpol] using h
    have := validateStage_ok_fields env spec gen st rev labeled applied h2
    simpa [reconcilePolicyStage, hpol] using this
  · cases hbc : env.breakingChangesRes with
    | error e => simp [reconcilePolicyStage, hpol, hbc, markFalseSt] at h
    | ok bcs =>
      by_cases hblock : (!bcs.isEmpty && spec.updatePolicy == "safe") = true
      · simp [reconcilePolicyStage, hpol, hbc, hblock, markFalseSt] at h
      · have h2 : (reconcileValidateStage env spec gen { st with breakingChanges := bcs }
            rev labeled applied).isErr = false := by
          simpa [reconcilePolicyStage, hpol, hbc, hblock] using h
        have := validateStage_ok_fields env spec gen { st with breakingChanges := bcs }
          rev labeled applied h2
        simpa [reconcilePolicyStage, hpol, hbc, hblock] using this

theorem fetchStage_ok_fields (env : Env) (spec : SpecM) (gen : Int) (bootstrapName : String)
    (st : StatusM) (rev : String)
    (h : (reconcileFetchStage env spec gen bootstrapName st rev).isErr = false) :
    (reconcileFetchStage env spec gen bootstrapName st rev).status.observedGeneration = gen ∧
    (reconcileFetchStage env spec gen bootstrapName st rev).status.ready
      = some (true, "Succeeded") ∧
    (reconcileFetchStage env spec gen bootstrapName st rev).status.lastAppliedRevision
      = rev := by
  cases hm : env.mkdirTempOK with
  | false => simp [reconcileFetchStage, hm, markFalseSt] at h
  | true =>
  cases hf : env.fetchCRDOK with
  | false => simp [reconcileFetchStage, hm, hf, markFalseSt] at h
  | true =>
  cases hrm : env.resourceManagerOK with
  | false => simp [reconcileFetchStage, hm, hf, hrm, markFalseSt] at h
  | true =>
  cases hro : env.readObjectsRes with
  | error e => simp [reconcileFetchStage, hm, hf, hrm, hro, markFalseSt] at h
  | ok objects =>
    cases hnames : st.lastAppliedCRDNames with
    | none =>
      unfold reconcileFetchStage at h ⊢
      simp only [hm, hf, hrm, hro, hnames, Bool.not_true, Bool.if_false_left,
        Bool.false_eq_true, if_false] at h ⊢
      exact policyStage_ok_fields _ _ _ _ _ _ _ h
    | some m =>
      unfold reconcileFetchStage at h ⊢
      simp only [hm, hf, hrm, hro, hnames, Bool.not_true, Bool.if_false_left,
        Bool.false_eq_true, if_false] at h ⊢
      exact policyStage_ok_fields _ _ _ _ _ _ _ h

theorem reconcile_ok_fields (env : Env) (spec : SpecM) (gen : Int) (bootstrapName : String)
    (st : StatusM) (h : (reconcile env spec gen bootstrapName st).isErr = false) :
    (reconcile env spec gen bootstrapName st).status.observedGeneration = gen ∧
    (reconcile env spec gen bootstrapName st).status.ready = some (true, "Succeeded") ∧
    ((∃ rev, sourceHasUpdate env.source st.lastAppliedRevision = .ok (false, rev) ∧
        (reconcile env spec gen bootstrapName st).status.lastAppliedRevision
          = st.lastAppliedRevision) ∨
     (∃ rev, sourceHasUpdate env.source st.lastAppliedRevision = .ok (true, rev) ∧
        (reconcile env spec gen bootstrapName st).status.lastAppliedRevision = rev)) := by
  cases hsu : sourceHasUpdate env.source st.lastAppliedRevision with
  | error e => simp [reconcile, hsu] at h
  | ok p =>
    obtain ⟨update, rev⟩ := p
    cases update with
    | false =>
      refine ⟨?_, ?_, Or.inl ⟨rev, rfl, ?_⟩⟩ <;> simp [reconcile, hsu]
    | true =>
      have h2 : (reconcileFetchStage env spec gen bootstrapName
          { st with lastAttemptedRevision := rev } rev).isErr = false := by
        simpa [reconcile, hsu] using h
      have hfld := fetchStage_ok_fields env spec gen bootstrapName _ rev h2
      refine ⟨?_, ?_, Or.inr ⟨rev, rfl, ?_⟩⟩ <;>
        simp [reconcile, hsu, hfld.1, hfld.2.1, hfld.2.2]

theorem validateStage_lastApplied (env : Env) (spec : SpecM) (gen : Int) (st : StatusM)
    (rev : String) (labeled : List RObj) (applied : List (String × Nat)) :
    (reconcileValidateStage env spec gen st rev labeled applied).status.lastAppliedRevision
        = st.lastAppliedRevision ∨
    (reconcileValidateStage env spec gen st rev labeled applied).status.lastAppliedRevision
        = rev := by
  unfold reconcileValidateStage
  split_ifs <;> simp [markFalseSt]

theorem policyStage_lastApplied (env : Env) (spec : SpecM) (gen : Int) (st : StatusM)
    (rev : String) (labeled : List RObj) (applied : List (String × Nat)) :
    (reconcilePolicyStage env spec gen st rev labeled applied).status.lastAppliedRevision
        = st.lastAppliedRevision ∨
    (reconcilePolicyStage env spec gen st rev labeled applied).status.lastAppliedRevision
        = rev := by
  by_cases hpol : spec.updatePolicy = ""
  · have := validateStage_lastApplied env spec gen st rev labeled applied
    simpa [reconcilePolicyStage, hpol] using this
  · cases hbc : env.breakingChangesRes with
    | error e => simp [reconcilePolicyStage, hpol, hbc, markFalseSt]
    | ok bcs =>
      by_cases hblock : (!bcs.isEmpty && spec.updatePolicy == "safe") = true
      · simp [reconcilePolicyStage, hpol, hbc, hblock, markFalseSt]
      · have := validateStage_lastApplied env spec gen { st with breakingChanges := bcs }
          rev labeled applied
        simpa [reconcilePolicyStage, hpol, hbc, hblock] using this

theorem fetchStage_lastApplied (env : Env) (spec : SpecM) (gen : Int) (bootstrapName : String)
    (st : StatusM) (rev : String) :
    (reconcileFetchStage env spec gen bootstrapName st rev).status.lastAppliedRevision
        = st.lastAppliedRevision ∨
    (reconcileFetchStage env spec gen bootstrapName st rev).status.lastAppliedRevision
        = rev := by
  cases hm : env.mkdirTempOK with
  | false => simp [reconcileFetchStage, hm, markFalseSt]
  | true =>
  cases hf : env.fetchCRDOK with
  | false => simp [reconcileFetchStage, hm, hf, markFalseSt]
  | true =>
  cases hrm : env.resourceManagerOK with
  | false => simp [reconcileFetchStage, hm, hf, hrm, markFalseSt]
  | true =>
  cases hro : env.readObjectsRes with
  | error e => simp [reconcileFetchStage, hm, hf, hrm, hro, markFalseSt]
  | ok objects =>
    cases hnames : st.lastAppliedCRDNames with
    | none =>
      unfold reconcileFetchStage
      simp only [hm, hf, hrm, hro, hnames, Bool.not_true, Bool.false_eq_true, if_false]
      exact policyStage_lastApplied _ _ _ _ _ _ _
    | some m =>
      unfold reconcileFetchStage
      simp only [hm, hf, hrm, hro, hnames, Bool.not_true, Bool.false_eq_true, if_false]
      exact policyStage_lastApplied _ _ _ _ _ _ _

theorem reconcile_lastApplied_cases (env : Env) (spec : SpecM) (gen : Int)
    (bootstrapName : String) (st : StatusM) :
    (reconcile env spec gen bootstrapName st).status.lastAppliedRevision
        = st.lastAppliedRevision ∨
    ∃ rev, sourceHasUpdate env.source st.lastAppliedRevision = .ok (true, rev) ∧
      (reconcile env spec gen bootstrapName st).status.lastAppliedRevision = rev := by
  cases hsu : sourceHasUpdate env.source st.lastAppliedRevision with
  | error e => left; simp [reconcile, hsu]
  | ok p =>
    obtain ⟨update, rev⟩ := p
    cases update with
    | false => left; simp [reconcile, hsu]
    | true =>
      have := fetchStage_lastApplied env spec gen bootstrapName
        { st with lastAttemptedRevision := rev } rev
      rcases this with hkeep | hset
      · left
        simpa [reconcile, hsu] using hkeep
      · right
        exact ⟨rev, rfl, by simpa [reconcile, hsu] using hset⟩

theorem reconcile_semver_advance (env : Env) (spec : SpecM) (gen : Int)
    (bootstrapName : String) (st : StatusM) (check : SemVer → Bool) (cand : String)
    (hsk : env.source = .semverK check cand) :
    (reconcile env spec gen bootstrapName st).status.lastAppliedRevision
        = st.lastAppliedRevision ∨
    (st.lastAppliedRevision = "" ∨
      ∃ va vb, parseVersion st.lastAppliedRevision = some va ∧
        parseVersion (reconcile env spec gen bootstrapName st).status.lastAppliedRevision
          = some vb ∧
        compareV va vb = .lt) := by
  rcases reconcile_lastApplied_cases env spec gen bootstrapName st with hkeep | ⟨rev, hd, hset⟩
  · exact Or.inl hkeep
  · rw [hsk] at hd
    simp only [sourceHasUpdate] at hd
    obtain ⟨hrev, vc, hp, hchk, htail⟩ := versionDecision_ok_true check cand _ rev hd
    rcases htail with hla | ⟨vl, hpl, hlt⟩
    · exact Or.inr (Or.inl hla)
    · refine Or.inr (Or.inr ⟨vl, vc, hpl, ?_, hlt⟩)
      rw [hset, hrev]
      exact hp

theorem reconcileTrace_head (spec : SpecM) (gen : Int) (bootstrapName : String)
    (envs : List Env) (st : StatusM) (h0 : 0 < (reconcileTrace spec gen bootstrapName envs st).length) :
    (reconcileTrace spec gen bootstrapName envs st).get ⟨0, h0⟩ = st := by
  cases envs <;> rfl

theorem validateStage_submitted_mem (env : Env) (spec : SpecM) (gen : Int) (st : StatusM)
    (rev : String) (labeled : List RObj) (applied : List (String × Nat)) :
    ∀ o ∈ (reconcileValidateStage env spec gen st rev labeled applied).applySubmitted,
      o ∈ labeled := by
  intro o ho
  unfold reconcileValidateStage at ho
  split_ifs at ho <;> simp_all

theorem policyStage_submitted_mem (env : Env) (spec : SpecM) (gen : Int) (st : StatusM)
    (rev : String) (labeled : List RObj) (applied : List (String × Nat)) :
    ∀ o ∈ (reconcilePolicyStage env spec gen st rev labeled applied).applySubmitted,
      o ∈ labeled := by
  intro o ho
  unfold reconcilePolicyStage at ho
  split at ho
  · exact validateStage_submitted_mem _ _ _ _ _ _ _ o ho
  · split at ho
    · simp at ho
    · split at ho
      · simp at ho
      · exact validateStage_submitted_mem _ _ _ _ _ _ _ o ho

theorem fetchStage_submitted_labels (env : Env) (spec : SpecM) (gen : Int)
    (bootstrapName : String) (st : StatusM) (rev : String) :
    ∀ o ∈ (reconcileFetchStage env spec gen bootstrapName st rev).applySubmitted,
      o.labels = [(bootstrapOwnerLabelKey, bootstrapName)] := by
  intro o ho
  unfold reconcileFetchStage at ho
  split_ifs at ho <;> try simp_all
  split at ho
  · simp at ho
  · have hmem := policyStage_submitted_mem _ _ _ _ _ _ _ o ho
    rcases List.mem_map.mp hmem with ⟨x, _, hxeq⟩
    rw [← hxeq]

theorem reconcile_submitted_labels (env : Env) (spec : SpecM) (gen : Int)
    (bootstrapName : String) (st : StatusM) :
    ∀ o ∈ (reconcile env spec gen bootstrapName st).applySubmitted,
      o.labels = [(bootstrapOwnerLabelKey, bootstrapName)] := by
  intro o ho
  unfold reconcile at ho
  split at ho
  · simp at ho
  · split at ho
    · exact fetchStage_submitted_labels _ _ _ _ _ _ o ho
    · simp at ho

/-- C5: every CRD object the controller submits to server-side apply carries
the owner label delivery.crd-bootstrap.owned valued with the Bootstrap name;
prune deletes only CRDs carrying exactly that label, so an unlabeled CRD
survives teardown; and with prune unset teardown deletes nothing and only
removes the finalizer. -/
theorem c5_owner_label_and_prune :
    (∀ (env : Env) (spec : SpecM) (gen : Int) (bootstrapName : String) (st : StatusM),
      ∀ o ∈ (reconcile env spec gen bootstrapName st).applySubmitted,
        o.labels.lookup bootstrapOwnerLabelKey = some bootstrapName) ∧
    (∀ (bootstrapName : String) (cluster : List CRDItem) (c : CRDItem),
      c ∈ cluster → c.labels.lookup bootstrapOwnerLabelKey ≠ some bootstrapName →
        c ∈ (reconcileDelete true bootstrapName cluster).remaining) ∧
    (∀ (bootstrapName : String) (cluster : List CRDItem) (c : CRDItem),
      c ∈ cluster → c ∉ (reconcileDelete true bootstrapName cluster).remaining →
        c.labels.lookup bootstrapOwnerLabelKey = some bootstrapName) ∧
    (∀ (bootstrapName : String) (cluster : List CRDItem),
      reconcileDelete false bootstrapName cluster = ⟨cluster, true⟩) := by
  refine ⟨?_, ?_, ?_, ?_⟩
  · intro env spec gen bootstrapName st o ho
    rw [reconcile_submitted_labels env spec gen bootstrapName st o ho]
    simp [List.lookup]
  · intro bootstrapName cluster c hc hno
    have hm : matchesOwner bootstrapName c = false := by
      unfold matchesOwner
      simpa using hno
    simp [reconcileDelete, List.mem_filter, hc, hm]
  · intro bootstrapName cluster c hc hno
    by_contra hlab
    apply hno
    have hm : matchesOwner bootstrapName c = false := by
      unfold matchesOwner
      simpa using hlab
    simp [reconcileDelete, List.mem_filter, hc, hm]
  · intro bootstrapName cluster
    rfl

/-- Witness for C5 at a concrete input: an unlabeled CRD survives a pruning
teardown of a Bootstrap named bs. -/
theorem c5_owner_label_and_prune_witness :
    (⟨"c.example.com", []⟩ : CRDItem) ∈ [(⟨"c.example.com", []⟩ : CRDItem)] ∧
    (⟨"c.example.com", []⟩ : CRDItem) ∈
      (reconcileDelete true "bs" [⟨"c.example.com", []⟩]).remaining := by
  refine ⟨by simp, ?_⟩
  exact c5_owner_label_and_prune.2.1 "bs" [⟨"c.example.com", []⟩] ⟨"c.example.com", []⟩
    (by simp) (by simp [List.lookup])

/-- C7: when template validation fails and continueOnValidationError is
false, the reconcile aborts with Ready False and reason CRDValidationFailed,
submits nothing to apply, and leaves lastAppliedRevision untouched; when
continueOnValidationError is true the apply proceeds and a successful apply
ends with Ready True. -/
theorem c7_validation_gate (env : Env) (spec : SpecM) (gen : Int) (bootstrapName : String)
    (st : StatusM) (rev : String) (objs : List RObj)
    (hu : sourceHasUpdate env.source st.lastAppliedRevision = .ok (true, rev))
    (hm : env.mkdirTempOK = true) (hf : env.fetchCRDOK = true)
    (hrm : env.resourceManagerOK = true) (hro : env.readObjectsRes = .ok objs)
    (hpol : spec.updatePolicy = "") (hv : env.validateFails = true) :
    (spec.continueOnValidationError = false →
      (reconcile env spec gen bootstrapName st).isErr = true ∧
      (reconcile env spec gen bootstrapName st).status.ready
        = some (false, "CRDValidationFailed") ∧
      (reconcile env spec gen bootstrapName st).applySubmitted = [] ∧
      (reconcile env spec gen bootstrapName st).status.lastAppliedRevision
        = st.lastAppliedRevision) ∧
    (spec.continueOnValidationError = true → env.applyOK = true → env.waitOK = true →
      (reconcile env spec gen bootstrapName st).isErr = false ∧
      (reconcile env spec gen bootstrapName st).status.ready = some (true, "Succeeded") ∧
      (reconcile env spec gen bootstrapName st).status.lastAppliedRevision = rev) := by
  constructor
  · intro hcont
    cases hnames : st.lastAppliedCRDNames <;>
      simp [reconcile, reconcileFetchStage, reconcilePolicyStage, reconcileValidateStage,
        markFalseSt, hu, hm, hf, hrm, hro, hpol, hv, hcont, hnames]
  · intro hcont happ hwait
    cases hnames : st.lastAppliedCRDNames <;>
      simp [reconcile, reconcileFetchStage, reconcilePolicyStage, reconcileValidateStage,
        markFalseSt, hu, hm, hf, hrm, hro, hpol, hv, hcont, happ, hwait, hnames]

/-- Witness for C7 at a concrete input: failing validation with the continue
flag unset aborts with reason CRDValidationFailed. -/
theorem c7_validation_gate_witness :
    (reconcile ⟨.urlK "" "h1", true, true, true, .ok [⟨"a", []⟩], .ok [], true, true, true⟩
        ⟨"", false, false⟩ 1 "bs" ⟨0, none, [], none, "", ""⟩).status.ready
      = some (false, "CRDValidationFailed") := by
  exact ((c7_validation_gate
    ⟨.urlK "" "h1", true, true, true, .ok [⟨"a", []⟩], .ok [], true, true, true⟩
    ⟨"", false, false⟩ 1 "bs" ⟨0, none, [], none, "", ""⟩ "h1" [⟨"a", []⟩]
    rfl rfl rfl rfl rfl rfl rfl).1 rfl).2.1

/-- C6 evaluation at the failing input: a Bootstrap whose status already
carries lastAppliedCRDNames mapping crd-a to 1 reconciles against new
content, validation fails with continueOnValidationError unset, the reconcile
returns an error and leaves lastAppliedRevision untouched, yet the deferred
status patch persists the counter map already bumped to 2 because the count
loop mutates the status map through the Go map alias. -/
theorem c6_failing_eval :
    (reconcile
        ⟨.urlK "" "h2", true, true, true, .ok [⟨"crd-a", []⟩], .ok [], true, true, true⟩
        ⟨"", false, false⟩ 1 "bootstrap-sample"
        ⟨0, some (true, "Succeeded"), [], some [("crd-a", 1)], "h1", "h1"⟩).isErr = true ∧
    (reconcile
        ⟨.urlK "" "h2", true, true, true, .ok [⟨"crd-a", []⟩], .ok [], true, true, true⟩
        ⟨"", false, false⟩ 1 "bootstrap-sample"
        ⟨0, some (true, "Succeeded"), [], some [("crd-a", 1)], "h1", "h1"⟩).status.ready
      = some (false, "CRDValidationFailed") ∧
    (reconcile
        ⟨.urlK "" "h2", true, true, true, .ok [⟨"crd-a", []⟩], .ok [], true, true, true⟩
        ⟨"", false, false⟩ 1 "bootstrap-sample"
        ⟨0, some (true, "Succeeded"), [], some [("crd-a", 1)], "h1", "h1"⟩).status.lastAppliedRevision
      = "h1" ∧
    (reconcile
        ⟨.urlK "" "h2", true, true, true, .ok [⟨"crd-a", []⟩], .ok [], true, true, true⟩
        ⟨"", false, false⟩ 1 "bootstrap-sample"
        ⟨0, some (true, "Succeeded"), [], some [("crd-a", 1)], "h1", "h1"⟩).status.lastAppliedCRDNames
      = some [("crd-a", 2)] := by
  exact ⟨rfl, rfl, rfl, rfl⟩

/-- C2: over any sequence of reconciles of one Bootstrap driven by a semver
source, status.lastAppliedRevision advances monotonically: between
consecutive reconciles a non-empty stored revision is either kept unchanged
or replaced by a strictly greater semver version; and when the source offers
a satisfying candidate that is semver-below the stored revision, the
reconcile neither rewrites lastAppliedRevision nor submits anything to
apply. -/
theorem c2_lastAppliedRevision_monotone (spec : SpecM) (gen : Int) (bootstrapName : String)
    (envs : List Env) (st : StatusM)
    (hsem : ∀ e ∈ envs, ∃ check cand, e.source = SourceKind.semverK check cand) :
    (∀ i (h1 : i < (reconcileTrace spec gen bootstrapName envs st).length)
       (h2 : i + 1 < (reconcileTrace spec gen bootstrapName envs st).length),
      ((reconcileTrace spec gen bootstrapName envs st).get ⟨i, h1⟩).lastAppliedRevision ≠ "" →
        (((reconcileTrace spec gen bootstrapName envs st).get ⟨i + 1, h2⟩).lastAppliedRevision
            = ((reconcileTrace spec gen bootstrapName envs st).get ⟨i, h1⟩).lastAppliedRevision ∨
          ∃ va vb,
            parseVersion
              ((reconcileTrace spec gen bootstrapName envs st).get ⟨i, h1⟩).lastAppliedRevision
              = some va ∧
            parseVersion
              ((reconcileTrace spec gen bootstrapName envs st).get ⟨i + 1, h2⟩).lastAppliedRevision
              = some vb ∧
            compareV va vb = .lt)) ∧
    (∀ (env : Env) (check : SemVer → Bool) (cand : String) (st2 : StatusM) (va vl : SemVer),
      env.source = SourceKind.semverK check cand →
      parseVersion st2.lastAppliedRevision = some vl →
      parseVersion cand = some va →
      check va = true →
      compareV vl va = .gt →
      (reconcile env spec gen bootstrapName st2).status.lastAppliedRevision
          = st2.lastAppliedRevision ∧
      (reconcile env spec gen bootstrapName st2).applySubmitted = []) := by
  constructor
  · induction envs generalizing st with
    | nil =>
      intro i h1 h2 hne
      simp [reconcileTrace] at h2
    | cons e es ih =>
      intro i h1 h2 hne
      have hlen : (reconcileTrace spec gen bootstrapName (e :: es) st).length
          = (reconcileTrace spec gen bootstrapName es
              (reconcile e spec gen bootstrapName st).status).length + 1 := by
        simp [reconcileTrace]
      cases i with
      | zero =>
        have h0 : 0 < (reconcileTrace spec gen bootstrapName es
            (reconcile e spec gen bootstrapName st).status).length := by omega
        have hhead : (reconcileTrace spec gen bootstrapName (e :: es) st).get ⟨0, h1⟩ = st := rfl
        have hst1 : (reconcileTrace spec gen bootstrapName (e :: es) st).get ⟨1, h2⟩
            = (reconcile e spec gen bootstrapName st).status := by
          show (reconcileTrace spec gen bootstrapName es
            (reconcile e spec gen bootstrapName st).status).get ⟨0, h0⟩ = _
          exact reconcileTrace_head _ _ _ _ _ h0
        rw [hhead] at hne
        rw [hhead, hst1]
        obtain ⟨check, cand, hsk⟩ := hsem e (List.mem_cons_self e es)
        rcases reconcile_semver_advance e spec gen bootstrapName st check cand hsk with
          hkeep | hemp | ⟨va, vb, hpa, hpb, hlt⟩
        · exact Or.inl hkeep
        · exact absurd hemp hne
        · exact Or.inr ⟨va, vb, hpa, hpb, hlt⟩
      | succ j =>
        have h1b : j < (reconcileTrace spec gen bootstrapName es
            (reconcile e spec gen bootstrapName st).status).length := by omega
        have h2b : j + 1 < (reconcileTrace spec gen bootstrapName es
            (reconcile e spec gen bootstrapName st).status).length := by omega
        exact ih (reconcile e spec gen bootstrapName st).status
          (fun e2 he2 => hsem e2 (List.mem_cons_of_mem _ he2)) j h1b h2b hne
  · intro env check cand st2 va vl hsk hpl hpc hchk hgt
    have hne : st2.lastAppliedRevision ≠ "" := by
      intro he
      rw [he, parseVersion_empty] at hpl
      exact Option.noConfusion hpl
    have hor : (eqV vl va || gtV vl va) = true := by
      unfold eqV gtV
      rw [hgt]
      rfl
    have hdec : versionDecision check cand st2.lastAppliedRevision
        = .ok (false, st2.lastAppliedRevision) := by
      simp [versionDecision, hpc, hchk, hne, hpl, hor]
    have hsu : sourceHasUpdate env.source st2.lastAppliedRevision
        = .ok (false, st2.lastAppliedRevision) := by
      rw [hsk]
      simpa [sourceHasUpdate] using hdec
    constructor <;> simp [reconcile, hsu]

/-- Witness for C2 at a concrete input: one reconcile whose source offers a
candidate that fails the constraint keeps the stored revision unchanged. -/
theorem c2_lastAppliedRevision_monotone_witness :
    (((reconcileTrace ⟨"", false, false⟩ 1 "bs"
        [⟨.semverK (fun _ => false) "2.0.0", true, true, true, .ok [], .ok [], false, true, true⟩]
        ⟨0, none, [], none, "1.0.0", "1.0.0"⟩).get ⟨0, by decide⟩).lastAppliedRevision ≠ "") ∧
    (((reconcileTrace ⟨"", false, false⟩ 1 "bs"
        [⟨.semverK (fun _ => false) "2.0.0", true, true, true, .ok [], .ok [], false, true, true⟩]
        ⟨0, none, [], none, "1.0.0", "1.0.0"⟩).get ⟨1, by decide⟩).lastAppliedRevision
        = ((reconcileTrace ⟨"", false, false⟩ 1 "bs"
        [⟨.semverK (fun _ => false) "2.0.0", true, true, true, .ok [], .ok [], false, true, true⟩]
        ⟨0, none, [], none, "1.0.0", "1.0.0"⟩).get ⟨0, by decide⟩).lastAppliedRevision ∨
      ∃ va vb,
        parseVersion ((reconcileTrace ⟨"", false, false⟩ 1 "bs"
          [⟨.semverK (fun _ => false) "2.0.0", true, true, true, .ok [], .ok [], false, true, true⟩]
          ⟨0, none, [], none, "1.0.0", "1.0.0"⟩).get ⟨0, by decide⟩).lastAppliedRevision
          = some va ∧
        parseVersion ((reconcileTrace ⟨"", false, false⟩ 1 "bs"
          [⟨.semverK (fun _ => false) "2.0.0", true, true, true, .ok [], .ok [], false, true, true⟩]
          ⟨0, none, [], none, "1.0.0", "1.0.0"⟩).get ⟨1, by decide⟩).lastAppliedRevision
          = some vb ∧
        compareV va vb = .lt) := by
  refine ⟨by decide, ?_⟩
  exact (c2_lastAppliedRevision_monotone ⟨"", false, false⟩ 1 "bs"
    [⟨.semverK (fun _ => false) "2.0.0", true, true, true, .ok [], .ok [], false, true, true⟩]
    ⟨0, none, [], none, "1.0.0", "1.0.0"⟩
    (by
      intro e he
      rw [List.mem_singleton] at he
      subst he
      exact ⟨fun _ => false, "2.0.0", rfl⟩)).1 0 (by decide) (by decide) (by decide)

/-- C4 amended: reconcile is idempotent for semver-driven sources and for URL
sources without a pinned digest: after an error-free reconcile, an immediate
second reconcile against the unchanged source and spec is a no-update cycle
that submits nothing to apply, returns no error, and leaves the whole status
unchanged.  (Per the counterexample, a URL source with a pinned digest equal
to the content hash instead re-applies on every cycle.) -/
theorem c4_idempotent_amended (env : Env) (spec : SpecM) (gen : Int) (bootstrapName : String)
    (st : StatusM)
    (hsrc : (∃ check cand, env.source = SourceKind.semverK check cand) ∨
            (∃ hashHex, env.source = SourceKind.urlK "" hashHex))
    (h1 : (reconcile env spec gen bootstrapName st).isErr = false) :
    reconcile env spec gen bootstrapName (reconcile env spec gen bootstrapName st).status
      = ⟨(reconcile env spec gen bootstrapName st).status, [], true, false⟩ := by
  obtain ⟨hg, hr, hlast⟩ := reconcile_ok_fields env spec gen bootstrapName st h1
  have hdec : ∃ r, sourceHasUpdate env.source
      (reconcile env spec gen bootstrapName st).status.lastAppliedRevision = .ok (false, r) := by
    rcases hlast with ⟨rev, hd, hkeep⟩ | ⟨rev, hd, hset⟩
    · exact ⟨rev, by rw [hkeep]; exact hd⟩
    · rcases hsrc with ⟨check, cand, hsk⟩ | ⟨hashHex, hsk⟩
      · rw [hsk] at hd ⊢
        simp only [sourceHasUpdate] at hd ⊢
        obtain ⟨hrev, vc, hp, hchk, _⟩ := versionDecision_ok_true check cand _ rev hd
        refine ⟨cand, ?_⟩
        rw [hset, hrev]
        exact versionDecision_self check vc cand hp hchk
      · rw [hsk] at hd ⊢
        simp only [sourceHasUpdate, Except.ok.injEq] at hd ⊢
        have hrev : rev = hashHex :=
          urlHasUpdate_noDigest_true hashHex st.lastAppliedRevision rev hd
        refine ⟨hashHex, ?_⟩
        rw [hset, hrev]
        exact urlHasUpdate_self hashHex
  obtain ⟨r2, hdec⟩ := hdec
  set st1 := (reconcile env spec gen bootstrapName st).status with hst1
  unfold reconcile
  rw [hdec]
  show (⟨{ st1 with observedGeneration := gen, ready := some (true, "Succeeded") },
      [], true, false⟩ : RecResult) = ⟨st1, [], true, false⟩
  rw [statusM_eta st1 gen hg hr]

/-- Witness for C4 amended at a concrete input: a URL source without a pinned
digest applies once and is then steady. -/
theorem c4_idempotent_amended_witness :
    reconcile ⟨.urlK "" "h1", true, true, true, .ok [⟨"a", []⟩], .ok [], false, true, true⟩
        ⟨"", false, false⟩ 1 "bs"
        (reconcile ⟨.urlK "" "h1", true, true, true, .ok [⟨"a", []⟩], .ok [], false, true, true⟩
          ⟨"", false, false⟩ 1 "bs" ⟨0, none, [], none, "", ""⟩).status
      = ⟨(reconcile ⟨.urlK "" "h1", true, true, true, .ok [⟨"a", []⟩], .ok [], false, true, true⟩
          ⟨"", false, false⟩ 1 "bs" ⟨0, none, [], none, "", ""⟩).status, [], true, false⟩ := by
  exact c4_idempotent_amended
    ⟨.urlK "" "h1", true, true, true, .ok [⟨"a", []⟩], .ok [], false, true, true⟩
    ⟨"", false, false⟩ 1 "bs" ⟨0, none, [], none, "", ""⟩
    (Or.inr ⟨"h1", rfl⟩) rfl

/-- Counterexample to C4 as stated: with a URL source pinned to a digest that
matches the content hash, the second of two back-to-back reconciles on an
unchanged source and spec submits the CRDs to apply again and increments
status.lastAppliedCRDNames again. -/
theorem c4_counterexample :
    (reconcile
        ⟨.urlK "dgst" "dgst", true, true, true, .ok [⟨"crd-a", []⟩], .ok [], false, true, true⟩
        ⟨"", false, false⟩ 1 "bs"
        (reconcile
          ⟨.urlK "dgst" "dgst", true, true, true, .ok [⟨"crd-a", []⟩], .ok [], false, true, true⟩
          ⟨"", false, false⟩ 1 "bs" ⟨0, none, [], none, "", ""⟩).status).applySubmitted ≠ [] ∧
    (reconcile
        ⟨.urlK "dgst" "dgst", true, true, true, .ok [⟨"crd-a", []⟩], .ok [], false, true, true⟩
        ⟨"", false, false⟩ 1 "bs"
        (reconcile
          ⟨.urlK "dgst" "dgst", true, true, true, .ok [⟨"crd-a", []⟩], .ok [], false, true, true⟩
          ⟨"", false, false⟩ 1 "bs" ⟨0, none, [], none, "", ""⟩).status).status.lastAppliedCRDNames
      = some [("crd-a", 2)] := by
  exact ⟨by decide, rfl⟩

end CrdBootstrap
